import Mathlib

/-
  Verification of the zip-backed filesystem adapter (pfio.v2.zip.Zip).

  Python `str` values are modelled as `List Char` (a Python string is a
  sequence of code points).  The path helpers `os.path.join` and
  `os.path.normpath` (posix flavour) and `str.split("/")` are translated
  directly from CPython's `posixpath` module, and the adapter operations are
  translated from `src/pfio/v2/zip.py`.

  The parsed archive (`zipfile.ZipFile` opened in read mode) is modelled by
  its central-directory entry list.  Per CPython's `zipfile` module, the
  parsed entry list (`namelist`, `getinfo`) remains available after
  `ZipFile.close()` (only `ZipFile.open` checks that the underlying stream is
  still present), which the model mirrors with an explicit `closed` flag.
-/

/-- Decidable equality for `Except`, needed to evaluate the modelled
operations on concrete archives. -/
def exceptDecEq {ε α : Type} [DecidableEq ε] [DecidableEq α] :
    DecidableEq (Except ε α)
  | .error e, .error f => decidable_of_iff (e = f) (by simp)
  | .error _, .ok _ => isFalse (fun h => Except.noConfusion h)
  | .ok _, .error _ => isFalse (fun h => Except.noConfusion h)
  | .ok a, .ok b => decidable_of_iff (a = b) (by simp)

instance {ε α : Type} [DecidableEq ε] [DecidableEq α] :
    DecidableEq (Except ε α) := exceptDecEq

namespace PfioZip

/-- Python `str` as a list of code points. -/
abbrev PyStr := List Char

/-- posix `os.path.join(a, b)` for two arguments, as called by `zip.py`. -/
def osJoin (a b : PyStr) : PyStr :=
  if ['/'] <+: b then b
  else if a = [] ∨ ['/'] <:+ a then a ++ b
  else a ++ '/' :: b

/-- Python `s.split("/")`: split on every slash, keeping empty pieces. -/
def splitSl : PyStr → List PyStr
  | [] => [[]]
  | c :: rest =>
      let r := splitSl rest
      if c = '/' then [] :: r
      else
        match r with
        | [] => [[c]]
        | h :: t => (c :: h) :: t

/-- Python `"/".join(l)`. -/
def joinSl : List PyStr → PyStr
  | [] => []
  | [s] => s
  | s :: rest => s ++ '/' :: joinSl rest

/-- Number of initial slashes kept by `posixpath.normpath` (0, 1 or 2). -/
def leadSlashes (p : PyStr) : Nat :=
  if ['/', '/'] <+: p ∧ ¬ (['/', '/', '/'] <+: p) then 2
  else if ['/'] <+: p then 1
  else 0

/-- One step of the component loop inside `posixpath.normpath`. -/
def npFold (k : Nat) (acc : List PyStr) (comp : PyStr) : List PyStr :=
  if comp = [] ∨ comp = ['.'] then acc
  else if comp ≠ ['.', '.'] ∨ (k = 0 ∧ acc = []) ∨ acc.getLast? = some ['.', '.'] then
    acc ++ [comp]
  else if acc ≠ [] then acc.dropLast
  else acc

/-- posix `os.path.normpath`, translated from CPython's `posixpath.normpath`
(the final `return path or '.'`). -/
def normpath (p : PyStr) : PyStr :=
  if p = [] then ['.']
  else if List.replicate (leadSlashes p) '/' ++
      joinSl ((splitSl p).foldl (npFold (leadSlashes p)) []) = [] then ['.']
  else List.replicate (leadSlashes p) '/' ++
      joinSl ((splitSl p).foldl (npFold (leadSlashes p)) [])

/-- Python `s.strip("/")`. -/
def stripSl (s : PyStr) : PyStr :=
  ((s.dropWhile (fun c => c = '/')).reverse.dropWhile (fun c => c = '/')).reverse

/-- Python `mode.replace("b", "")`. -/
def stripB (mode : PyStr) : PyStr := mode.filter (fun c => c ≠ 'b')

/-- One record of the parsed archive index (`zipfile.ZipInfo`), restricted to
the fields the claims depend on. -/
structure ZipInfo where
  filename : PyStr
  external_attr : Nat
  file_size : Nat
deriving DecidableEq

/-- The parsed archive index: central-directory entries in physical order. -/
structure Archive where
  infos : List ZipInfo
deriving DecidableEq

/-- `ZipFile.namelist()`: entry names in index order. -/
def namelist (ar : Archive) : List PyStr := ar.infos.map (·.filename)

/-- `ZipFile.getinfo(name)`: CPython builds the `NameToInfo` dict by
inserting entries in order, so a duplicate name maps to its last record. -/
def getinfo (ar : Archive) (name : PyStr) : Option ZipInfo :=
  (ar.infos.filter (fun zi => zi.filename = name)).getLast?

/-- The fields of `ZipFileStat` (zip.py lines 39-49) used by the claims:
`mode` is `external_attr >> 16` and `size` is `file_size`. -/
structure ZipFileStat where
  filename : PyStr
  mode : Nat
  size : Nat
deriving DecidableEq

/-- `ZipFileStat.__init__` restricted to the modelled fields. -/
def zipFileStatOf (zi : ZipInfo) : ZipFileStat :=
  { filename := zi.filename, mode := zi.external_attr >>> 16, size := zi.file_size }

/-- Modelled from the spec: `FileStat.isdir` lives in `pfio/v2/fs.py`, which
is not part of the sources under study.  Per spec §4.2 it reports the Unix
directory bit encoded in the upper mode bits, i.e. `bool(mode & 0o40000)`. -/
def fileStatIsdir (st : ZipFileStat) : Bool := st.mode &&& 0o40000 != 0

/-- Every distinct raise site reachable in the modelled operations. -/
inductive ZipError
  /-- `ValueError("create option is not supported")` in `Zip.__init__`. -/
  | createNotSupported
  /-- `io.UnsupportedOperation("Read-write mode is not supported")` in `Zip.__init__`. -/
  | readWriteModeNotSupported
  /-- `FileNotFoundError` raised by `Zip.stat` / `Zip.list`. -/
  | fileNotFound (path : PyStr)
  /-- `NotADirectoryError` raised by `Zip.list`. -/
  | notADirectory (path : PyStr)
  /-- `io.UnsupportedOperation` from `Zip.mkdir`. -/
  | mkdirUnsupported
  /-- `io.UnsupportedOperation` from `Zip.makedirs`. -/
  | makedirsUnsupported
  /-- `io.UnsupportedOperation` from `Zip.rename`. -/
  | renameUnsupported
  /-- `io.UnsupportedOperation` from `Zip.remove`. -/
  | removeUnsupported
  /-- `ValueError("Attempt to use ZIP archive that was already closed")` from `ZipFile.open`. -/
  | zipArchiveClosed
  /-- `ValueError("write() requires mode 'w', 'x', or 'a'")` from `ZipFile._writecheck`. -/
  | writeRequiresWriteMode
  /-- `ValueError` for an `open()` mode other than "r"/"w" in `ZipFile.open`. -/
  | badOpenMode (mode : PyStr)
  /-- `KeyError` from `ZipFile.getinfo` for a missing entry. -/
  | keyError (name : PyStr)
deriving DecidableEq

/-- Whether the Python exception raised at this site is an instance of
`io.UnsupportedOperation` (CPython class fact; a plain `ValueError` such as
zipfile's "write() requires mode 'w', 'x', or 'a'" is not one). -/
def raisesUnsupportedOperation : ZipError → Bool
  | .readWriteModeNotSupported => true
  | .mkdirUnsupported => true
  | .makedirsUnsupported => true
  | .renameUnsupported => true
  | .removeUnsupported => true
  | _ => false

/-- The abstract error kinds of spec §7. -/
inductive SpecErrorKind
  | notFound
  | notADirectoryKind
  | unsupportedOperationKind
  | invalidConfiguration
  | usageError
  | other
deriving DecidableEq

/-- Spec §7 taxonomy: which abstract kind each raise site falls under.  The
two `Zip.__init__` rejections are listed by the spec under
InvalidConfiguration; the closed-archive rejection is the usage error of the
Closed state. -/
def specKindOf : ZipError → SpecErrorKind
  | .createNotSupported => .invalidConfiguration
  | .readWriteModeNotSupported => .invalidConfiguration
  | .fileNotFound _ => .notFound
  | .keyError _ => .notFound
  | .notADirectory _ => .notADirectoryKind
  | .mkdirUnsupported => .unsupportedOperationKind
  | .makedirsUnsupported => .unsupportedOperationKind
  | .renameUnsupported => .unsupportedOperationKind
  | .removeUnsupported => .unsupportedOperationKind
  | .zipArchiveClosed => .usageError
  | .writeRequiresWriteMode => .other
  | .badOpenMode _ => .other

/-- The external actions `Zip.__init__` performs after its argument checks. -/
inductive InitEvent
  | backendOpen
  | parseIndex
deriving DecidableEq

/-- `Zip.__init__` (zip.py lines 55-95): the create / read-write-mode checks
happen before `self.backend.open` and before `zipfile.ZipFile` parses the
index.  The second component records which external actions were reached. -/
def zipInit (mode : PyStr) (create : Bool) : Except ZipError Unit × List InitEvent :=
  if create then (.error .createNotSupported, [])
  else if 'r' ∈ mode ∧ 'w' ∈ mode then (.error .readWriteModeNotSupported, [])
  else (.ok (), [.backendOpen, .parseIndex])

/-- A read-mode `Zip` adapter after construction: the parsed index, the
current working root, and whether `close()` has been called.  The working
root starts as the empty string (modelled from the spec: the base class `FS`
holding `cwd` is not under study; spec §3 describes it as the
current-working-root used to resolve relative requests, the archive root
initially).  `FS._checkfork` is likewise modelled from the spec as a no-op
in a single unforked process (spec §5). -/
structure ZipAdapter where
  ar : Archive
  cwd : PyStr
  closed : Bool
deriving DecidableEq

/-- `Zip.close` (zip.py lines 114-117): closes the `ZipFile` and the stream.
The parsed entry list survives per CPython `zipfile` semantics. -/
def zipClose (z : ZipAdapter) : ZipAdapter := { z with closed := true }

/-- `Zip.exists` (zip.py lines 208-213). -/
def zipExists (z : ZipAdapter) (path : PyStr) : Bool :=
  decide (osJoin z.cwd (normpath path) ∈ namelist z.ar ∨
    (osJoin z.cwd (normpath path) ++ ['/']) ∈ namelist z.ar)

/-- `Zip.stat` (zip.py lines 119-133). -/
def zipStat (z : ZipAdapter) (path : PyStr) : Except ZipError ZipFileStat :=
  if osJoin z.cwd (normpath path) ∈ namelist z.ar then
    match getinfo z.ar (osJoin z.cwd (normpath path)) with
    | some zi => .ok (zipFileStatOf zi)
    | none => .error (.keyError (osJoin z.cwd (normpath path)))
  else if ¬ (['/'] <:+ osJoin z.cwd (normpath path)) ∧
      (osJoin z.cwd (normpath path) ++ ['/']) ∈ namelist z.ar then
    match getinfo z.ar (osJoin z.cwd (normpath path) ++ ['/']) with
    | some zi => .ok (zipFileStatOf zi)
    | none => .error (.keyError (osJoin z.cwd (normpath path) ++ ['/']))
  else
    .error (.fileNotFound (osJoin z.cwd (normpath path)))

/-- `Zip.isdir` (zip.py lines 188-200).  Note the argument is joined to the
working root without normalization before the `exists` test; `stat` and
`exists` renormalize it themselves. -/
def zipIsdir (z : ZipAdapter) (path : PyStr) : Except ZipError Bool :=
  if zipExists z (osJoin z.cwd path) then
    match zipStat z (osJoin z.cwd path) with
    | .ok st => .ok (fileStatIsdir st)
    | .error e => .error e
  else
    .ok (decide (∃ n ∈ namelist z.ar, (normpath (osJoin z.cwd path) ++ ['/']) <+: n))

/-- The reset test of `Zip.list` (zip.py lines 142-146): the normalized
prefix is discarded when its segments contain "." or ".." or are all empty. -/
def degenerate (p : PyStr) : Prop :=
  ['.'] ∈ splitSl p ∨ ['.', '.'] ∈ splitSl p ∨
    (splitSl p ≠ [] ∧ ∀ c ∈ splitSl p, c = [])

instance : DecidablePred degenerate := fun p => by
  unfold degenerate; infer_instance

/-- The prefix-resolution block at the top of `Zip.list` (zip.py lines
135-148): returns the effective prefix and its segment list. -/
def listResolve (z : ZipAdapter) (pathOrPrefix : PyStr) : PyStr × List PyStr :=
  if pathOrPrefix = [] then ([], [])
  else if degenerate (osJoin z.cwd (normpath pathOrPrefix)) then ([], [])
  else (osJoin z.cwd (normpath pathOrPrefix),
        splitSl (osJoin z.cwd (normpath pathOrPrefix)))

/-- The effective prefix used by `Zip.list`. -/
def listPre (z : ZipAdapter) (pathOrPrefix : PyStr) : PyStr :=
  (listResolve z pathOrPrefix).1

/-- The segment list used by the non-recursive branch of `Zip.list`. -/
def listGiven (z : ZipAdapter) (pathOrPrefix : PyStr) : List PyStr :=
  (listResolve z pathOrPrefix).2

/-- The prefix-validation block of `Zip.list` (zip.py lines 150-159),
including the `elif` also being tested when the prefix is an existing
directory. -/
def listValidate (z : ZipAdapter) (pre : PyStr) : Except ZipError Unit :=
  if pre = [] then .ok ()
  else if zipExists z pre then
    match zipIsdir z pre with
    | .error e => .error e
    | .ok false => .error (.notADirectory pre)
    | .ok true =>
        if ∃ n ∈ namelist z.ar, (pre ++ ['/']) <+: n then .ok ()
        else .error (.fileNotFound pre)
  else
    if ∃ n ∈ namelist z.ar, (pre ++ ['/']) <+: n then .ok ()
    else .error (.fileNotFound pre)

/-- The per-entry candidate of the non-recursive loop (zip.py lines
169-181): the next segment after the requested segments, if any. -/
def childCandidate (given : List PyStr) (n : PyStr) : Option PyStr :=
  if given = [] then (splitSl (normpath n)).head?
  else if (splitSl (normpath n)).length > given.length ∧
      (splitSl (normpath n)).take given.length = given then
    ((splitSl (normpath n)).drop given.length).head?
  else none

/-- The non-recursive enumeration loop of `Zip.list` (zip.py lines 167-186):
yield each candidate the first time it is seen. -/
def nonRecChildren (names : List PyStr) (given : List PyStr) : List PyStr :=
  names.foldl (fun acc n =>
    match childCandidate given n with
    | some r => if r ∈ acc then acc else acc ++ [r]
    | none => acc) []

/-- The recursive enumeration of `Zip.list` (zip.py lines 161-166). -/
def recEntries (names : List PyStr) (pre : PyStr) : List PyStr :=
  names.filterMap (fun n =>
    if pre <+: n then
      if stripSl (n.drop pre.length) = [] then none
      else some (stripSl (n.drop pre.length))
    else none)

/-- `Zip.list` (zip.py lines 135-186), with the generator materialized; the
validation errors happen before the first yield. -/
def zipList (z : ZipAdapter) (pathOrPrefix : PyStr) (recursive : Bool) :
    Except ZipError (List PyStr) :=
  match listValidate z (listPre z pathOrPrefix) with
  | .error e => .error e
  | .ok _ =>
      if recursive then .ok (recEntries (namelist z.ar) (listPre z pathOrPrefix))
      else .ok (nonRecChildren (namelist z.ar) (listGiven z pathOrPrefix))

/-- `Zip.mkdir` (zip.py lines 202-203). -/
def zipMkdir (_z : ZipAdapter) (_path : PyStr) : Except ZipError Unit :=
  .error .mkdirUnsupported

/-- `Zip.makedirs` (zip.py lines 205-206). -/
def zipMakedirs (_z : ZipAdapter) (_path : PyStr) : Except ZipError Unit :=
  .error .makedirsUnsupported

/-- `Zip.rename` (zip.py lines 215-216). -/
def zipRename (_z : ZipAdapter) (_src _dst : PyStr) : Except ZipError Unit :=
  .error .renameUnsupported

/-- `Zip.remove` (zip.py lines 218-219). -/
def zipRemove (_z : ZipAdapter) (_path : PyStr) (_recursive : Bool) :
    Except ZipError Unit :=
  .error .removeUnsupported

/-- `ZipFile.open(name, mode)` for a `ZipFile` constructed in read mode,
translated from CPython `zipfile`: the mode must be "r" or "w"; a closed
archive is rejected; opening for write calls `_open_to_write`, whose
`_writecheck` rejects a read-mode archive with a plain `ValueError`; reading
looks the name up in the index.  The returned handle is modelled by the
matched entry. -/
def zipFileOpen (ar : Archive) (closed : Bool) (name mode : PyStr) :
    Except ZipError ZipInfo :=
  if mode ≠ ['r'] ∧ mode ≠ ['w'] then .error (.badOpenMode mode)
  else if closed then .error .zipArchiveClosed
  else if mode = ['w'] then .error .writeRequiresWriteMode
  else
    match getinfo ar name with
    | some zi => .ok zi
    | none => .error (.keyError name)

/-- `Zip.open` (zip.py lines 97-108): resolve, strip "b" from the mode, and
delegate to `ZipFile.open`. -/
def zipOpen (z : ZipAdapter) (path mode : PyStr) : Except ZipError ZipInfo :=
  zipFileOpen z.ar z.closed (osJoin z.cwd (normpath path)) (stripB mode)

/-- Deduplication keeping the first occurrence of each element, in order:
the observable effect of the `_list` set in the non-recursive loop. -/
def firstSeenDedup (l : List PyStr) : List PyStr :=
  l.foldl (fun acc r => if r ∈ acc then acc else acc ++ [r]) []

/-- A well-formed path segment: nonempty, not "." or "..", slash-free. -/
def SegWF (s : PyStr) : Prop :=
  s ≠ [] ∧ s ≠ ['.'] ∧ s ≠ ['.', '.'] ∧ '/' ∉ s

/-- A well-formed archive entry name in the sense of the spec's data model
(§3): a slash-separated sequence of path segments, optionally ending in a
separator (directory marker). -/
def WFName (n : PyStr) : Prop :=
  ∃ (segs : List PyStr) (marker : Bool), segs ≠ [] ∧ (∀ s ∈ segs, SegWF s) ∧
    n = joinSl segs ++ (if marker then ['/'] else [])

instance (s : PyStr) : Decidable (SegWF s) := by
  unfold SegWF; infer_instance

/-- An adapter freshly opened at the archive root. -/
def atRoot (ar : Archive) : ZipAdapter := ⟨ar, [], false⟩

/-- A one-file archive built without directory markers: only "d/b.txt". -/
def arNoMarker : Archive := ⟨[⟨"d/b.txt".toList, 0o100644 <<< 16, 4⟩]⟩

/-- An archive whose only entry name contains a doubled separator. -/
def arDoubleSlash : Archive := ⟨[⟨"d//c".toList, 0o100644 <<< 16, 1⟩]⟩

/-- An archive with a single regular file at the root. -/
def arRootFile : Archive := ⟨[⟨"a.txt".toList, 0o100644 <<< 16, 5⟩]⟩

/-- An archive whose only entry name starts with "./". -/
def arDotSlash : Archive := ⟨[⟨"./x".toList, 0o100644 <<< 16, 1⟩]⟩

/-- An archive holding only the directory marker "d/". -/
def arMarkerOnly : Archive := ⟨[⟨"d/".toList, (0o40755 <<< 16) + 0x10, 0⟩]⟩

/- ------------------------------------------------------------------ -/
/- Helper lemmas                                                      -/
/- ------------------------------------------------------------------ -/

theorem atRoot_ar (ar : Archive) : (atRoot ar).ar = ar := rfl

theorem atRoot_cwd (ar : Archive) : (atRoot ar).cwd = [] := rfl

theorem getLast?_mem' {α : Type} {l : List α} {a : α}
    (h : l.getLast? = some a) : a ∈ l := by
  obtain ⟨hne, rfl⟩ := List.mem_getLast?_eq_getLast (Option.mem_def.mpr h)
  exact List.getLast_mem hne

theorem getLast?_of_ne_nil {α : Type} :
    ∀ {l : List α}, l ≠ [] → ∃ a, l.getLast? = some a
  | [], h => absurd rfl h
  | [a], _ => ⟨a, rfl⟩
  | _ :: b :: t, _ => by
      obtain ⟨x, hx⟩ := getLast?_of_ne_nil (l := b :: t) (by simp)
      exact ⟨x, by rw [List.getLast?_cons_cons, hx]⟩

theorem getinfo_spec {ar : Archive} {n : PyStr} {zi : ZipInfo}
    (h : getinfo ar n = some zi) : zi ∈ ar.infos ∧ zi.filename = n := by
  have hm := getLast?_mem' h
  simpa using List.mem_filter.mp hm

theorem getinfo_mem_namelist {ar : Archive} {n : PyStr} {zi : ZipInfo}
    (h : getinfo ar n = some zi) : n ∈ namelist ar := by
  obtain ⟨hmem, hfn⟩ := getinfo_spec h
  exact List.mem_map.mpr ⟨zi, hmem, hfn⟩

theorem mem_getinfo {ar : Archive} {n : PyStr} (h : n ∈ namelist ar) :
    ∃ zi, getinfo ar n = some zi ∧ zi.filename = n := by
  obtain ⟨zi, hmem, hfn⟩ := List.mem_map.mp h
  have hf : zi ∈ ar.infos.filter (fun zi => zi.filename = n) :=
    List.mem_filter.mpr ⟨hmem, by simp [hfn]⟩
  obtain ⟨w, hw⟩ := getLast?_of_ne_nil (List.ne_nil_of_mem hf)
  exact ⟨w, hw, (getinfo_spec hw).2⟩

theorem osJoin_nil_left (b : PyStr) : osJoin [] b = b := by
  unfold osJoin
  split
  · rfl
  · rw [if_pos (Or.inl rfl)]
    rfl

theorem dedupGo_nodup :
    ∀ (l acc : List PyStr), acc.Nodup →
      (l.foldl (fun acc r => if r ∈ acc then acc else acc ++ [r]) acc).Nodup
  | [], _, h => h
  | r :: l, acc, h => by
      simp only [List.foldl_cons]
      by_cases hr : r ∈ acc
      · rw [if_pos hr]; exact dedupGo_nodup l acc h
      · rw [if_neg hr]
        exact dedupGo_nodup l (acc ++ [r])
          (by simp [List.nodup_append, h, hr])

theorem mem_dedupGo :
    ∀ (l acc : List PyStr) (a : PyStr),
      a ∈ l.foldl (fun acc r => if r ∈ acc then acc else acc ++ [r]) acc ↔
        a ∈ acc ∨ a ∈ l
  | [], acc, a => by simp
  | r :: l, acc, a => by
      simp only [List.foldl_cons]
      by_cases hr : r ∈ acc
      · rw [if_pos hr, mem_dedupGo l acc a]
        constructor
        · rintro (h | h)
          · exact Or.inl h
          · exact Or.inr (List.mem_cons_of_mem _ h)
        · rintro (h | h)
          · exact Or.inl h
          · rcases List.mem_cons.mp h with rfl | h
            · exact Or.inl hr
            · exact Or.inr h
      · rw [if_neg hr, mem_dedupGo l (acc ++ [r]) a]
        simp only [List.mem_append, List.mem_singleton, List.mem_cons]
        tauto

theorem firstSeenDedup_nodup (l : List PyStr) : (firstSeenDedup l).Nodup :=
  dedupGo_nodup l [] List.nodup_nil

theorem mem_firstSeenDedup (l : List PyStr) (a : PyStr) :
    a ∈ firstSeenDedup l ↔ a ∈ l := by
  rw [firstSeenDedup, mem_dedupGo]; simp

theorem nonRecGo_eq (given : List PyStr) :
    ∀ (names : List PyStr) (acc : List PyStr),
      names.foldl (fun acc n =>
        match childCandidate given n with
        | some r => if r ∈ acc then acc else acc ++ [r]
        | none => acc) acc
      = (names.filterMap (childCandidate given)).foldl
          (fun acc r => if r ∈ acc then acc else acc ++ [r]) acc
  | [], _ => rfl
  | n :: names, acc => by
      cases h : childCandidate given n <;>
        simp only [List.foldl_cons, List.filterMap_cons, h] <;>
        exact nonRecGo_eq given names _

theorem nonRecChildren_eq_dedup (names given : List PyStr) :
    nonRecChildren names given =
      firstSeenDedup (names.filterMap (childCandidate given)) :=
  nonRecGo_eq given names []

theorem splitSl_ne_nil : ∀ (s : PyStr), splitSl s ≠ []
  | [] => by simp [splitSl]
  | c :: rest => by
      simp only [splitSl]
      split
      · simp
      · split
        · simp
        · simp

theorem splitSl_cons_slash (rest : PyStr) :
    splitSl ('/' :: rest) = [] :: splitSl rest := by
  simp [splitSl]

theorem splitSl_cons_of_ne {c : Char} (rest : PyStr) (h : c ≠ '/')
    {hd : PyStr} {tl : List PyStr} (he : splitSl rest = hd :: tl) :
    splitSl (c :: rest) = (c :: hd) :: tl := by
  simp [splitSl, h, he]

theorem joinSl_cons_cons (a b : PyStr) (t : List PyStr) :
    joinSl (a :: b :: t) = a ++ '/' :: joinSl (b :: t) := rfl

theorem joinSl_splitSl : ∀ (s : PyStr), joinSl (splitSl s) = s
  | [] => rfl
  | c :: rest => by
      have ih := joinSl_splitSl rest
      by_cases h : c = '/'
      · subst h
        rw [splitSl_cons_slash]
        cases he : splitSl rest with
        | nil => exact absurd he (splitSl_ne_nil rest)
        | cons hd tl =>
            rw [he] at ih
            show joinSl ([] :: hd :: tl) = '/' :: rest
            rw [joinSl_cons_cons]
            simpa using ih
      · cases he : splitSl rest with
        | nil => exact absurd he (splitSl_ne_nil rest)
        | cons hd tl =>
            rw [splitSl_cons_of_ne rest h he]
            rw [he] at ih
            cases tl with
            | nil =>
                have h1 : joinSl [hd] = hd := rfl
                rw [h1] at ih
                show c :: hd = c :: rest
                rw [ih]
            | cons y t =>
                rw [joinSl_cons_cons] at ih
                rw [joinSl_cons_cons]
                show (c :: hd) ++ '/' :: joinSl (y :: t) = c :: rest
                rw [← ih]
                rfl

theorem not_slash_mem_splitSl :
    ∀ (s : PyStr) (c : PyStr), c ∈ splitSl s → '/' ∉ c
  | [], c, h => by
      simp [splitSl] at h; simp [h]
  | a :: rest, c, h => by
      by_cases ha : a = '/'
      · subst ha
        rw [splitSl_cons_slash] at h
        rcases List.mem_cons.mp h with rfl | h
        · simp
        · exact not_slash_mem_splitSl rest c h
      · cases he : splitSl rest with
        | nil => exact absurd he (splitSl_ne_nil rest)
        | cons hd tl =>
            rw [splitSl_cons_of_ne rest ha he] at h
            rcases List.mem_cons.mp h with rfl | h
            · intro hm
              rcases List.mem_cons.mp hm with h1 | h1
              · exact ha h1.symm
              · exact not_slash_mem_splitSl rest hd (he ▸ List.mem_cons_self hd tl) h1
            · exact not_slash_mem_splitSl rest c (he ▸ List.mem_cons_of_mem hd h)

theorem splitSl_of_no_slash : ∀ (s : PyStr), '/' ∉ s → splitSl s = [s]
  | [], _ => rfl
  | c :: rest, h => by
      have hc : c ≠ '/' := fun hc => h (hc ▸ List.mem_cons_self c rest)
      have hr : '/' ∉ rest := fun hm => h (List.mem_cons_of_mem c hm)
      exact splitSl_cons_of_ne rest hc (splitSl_of_no_slash rest hr)

theorem splitSl_append_of_no_slash :
    ∀ (x : PyStr) (t : PyStr) {hd : PyStr} {tl : List PyStr}, '/' ∉ x →
      splitSl t = hd :: tl → splitSl (x ++ t) = (x ++ hd) :: tl
  | [], t, hd, tl, _, he => by simpa using he
  | c :: x', t, hd, tl, h, he => by
      have hc : c ≠ '/' := fun hc => h (hc ▸ List.mem_cons_self c x')
      have hx : '/' ∉ x' := fun hm => h (List.mem_cons_of_mem c hm)
      have ih := splitSl_append_of_no_slash x' t hx he
      simpa using splitSl_cons_of_ne (x' ++ t) hc ih

theorem splitSl_append_slash :
    ∀ (x : PyStr), splitSl (x ++ ['/']) = splitSl x ++ [[]]
  | [] => rfl
  | c :: x' => by
      have ih := splitSl_append_slash x'
      by_cases hc : c = '/'
      · subst hc
        show splitSl ('/' :: (x' ++ ['/'])) = splitSl ('/' :: x') ++ [[]]
        rw [splitSl_cons_slash, splitSl_cons_slash, ih]; rfl
      · cases he : splitSl x' with
        | nil => exact absurd he (splitSl_ne_nil x')
        | cons hd tl =>
            rw [he] at ih
            show splitSl (c :: (x' ++ ['/'])) = splitSl (c :: x') ++ [[]]
            rw [splitSl_cons_of_ne (x' ++ ['/']) hc (by simpa using ih),
                splitSl_cons_of_ne x' hc he]
            rfl

theorem splitSl_joinSl :
    ∀ (l : List PyStr), l ≠ [] → (∀ c ∈ l, '/' ∉ c) → splitSl (joinSl l) = l
  | [], h, _ => absurd rfl h
  | [x], _, hc => by
      show splitSl x = [x]
      exact splitSl_of_no_slash x (hc x (List.mem_singleton_self x))
  | x :: y :: t, _, hc => by
      have ih := splitSl_joinSl (y :: t) (by simp)
        (fun c hm => hc c (List.mem_cons_of_mem x hm))
      show splitSl (x ++ '/' :: joinSl (y :: t)) = x :: y :: t
      rw [splitSl_append_of_no_slash x ('/' :: joinSl (y :: t))
            (hc x (List.mem_cons_self x (y :: t)))
            (by rw [splitSl_cons_slash, ih])]
      simp

theorem joinSl_append :
    ∀ (l₁ l₂ : List PyStr), l₁ ≠ [] → l₂ ≠ [] →
      joinSl (l₁ ++ l₂) = joinSl l₁ ++ '/' :: joinSl l₂
  | [], _, h, _ => absurd rfl h
  | [x], l₂, _, h₂ => by
      cases l₂ with
      | nil => exact absurd rfl h₂
      | cons y t => rfl
  | x :: y :: t, l₂, _, h₂ => by
      have ih := joinSl_append (y :: t) l₂ (by simp) h₂
      show joinSl (x :: ((y :: t) ++ l₂)) = (x ++ '/' :: joinSl (y :: t)) ++ '/' :: joinSl l₂
      rw [show joinSl (x :: ((y :: t) ++ l₂)) = x ++ '/' :: joinSl ((y :: t) ++ l₂) from rfl,
          ih]
      simp

theorem joinSl_cons_ne_nil {x : PyStr} (t : List PyStr) (h : x ≠ []) :
    joinSl (x :: t) ≠ [] := by
  cases t with
  | nil => exact h
  | cons y t' => simp [joinSl_cons_cons, h]

theorem joinSl_cons_decomp (s : PyStr) (t : List PyStr) :
    ∃ x, joinSl (s :: t) = s ++ x := by
  cases t with
  | nil => exact ⟨[], by simp [joinSl]⟩
  | cons y t' => exact ⟨'/' :: joinSl (y :: t'), rfl⟩

theorem not_slash_pre {s x : PyStr} (hne : s ≠ []) (hs : '/' ∉ s) :
    ¬ ['/'] <+: (s ++ x) := by
  cases s with
  | nil => exact absurd rfl hne
  | cons c s' =>
      rintro ⟨t, ht⟩
      simp only [List.cons_append, List.singleton_append, List.cons.injEq] at ht
      exact hs (ht.1 ▸ List.mem_cons_self _ _)

theorem leadSlashes_eq_zero {n : PyStr} (h : ¬ ['/'] <+: n) :
    leadSlashes n = 0 := by
  unfold leadSlashes
  rw [if_neg, if_neg h]
  rintro ⟨h2, -⟩
  exact h (List.IsPrefix.trans (by decide) h2)

theorem npFold_wf :
    ∀ (comps : List PyStr) (k : Nat) (acc : List PyStr),
      (∀ c ∈ comps, c = [] ∨ SegWF c) →
      comps.foldl (npFold k) acc = acc ++ comps.filter (fun c => c ≠ [])
  | [], _, acc, _ => by simp
  | c :: rest, k, acc, h => by
      rcases h c (List.mem_cons_self c rest) with hc | hc
      · subst hc
        have step : npFold k acc [] = acc := by simp [npFold]
        simp only [List.foldl_cons, step, List.filter_cons]
        rw [npFold_wf rest k acc (fun c hm => h c (List.mem_cons_of_mem _ hm))]
        simp
      · obtain ⟨h1, h2, h3, _⟩ := hc
        have step : npFold k acc c = acc ++ [c] := by
          unfold npFold
          rw [if_neg (by simp [h1, h2]), if_pos (Or.inl h3)]
        simp only [List.foldl_cons, step, List.filter_cons]
        rw [npFold_wf rest k (acc ++ [c]) (fun c hm => h c (List.mem_cons_of_mem _ hm))]
        simp [h1]

theorem splitSl_of_wf {segs : List PyStr} {marker : Bool}
    (hne : segs ≠ []) (hwf : ∀ s ∈ segs, SegWF s) :
    splitSl (joinSl segs ++ (if marker then ['/'] else [])) =
      segs ++ (if marker then [[]] else []) := by
  cases marker
  · simpa using splitSl_joinSl segs hne (fun c hc => (hwf c hc).2.2.2)
  · simp only [if_pos trivial]
    rw [splitSl_append_slash, splitSl_joinSl segs hne (fun c hc => (hwf c hc).2.2.2)]

theorem normpath_wf {segs : List PyStr} {marker : Bool}
    (hne : segs ≠ []) (hwf : ∀ s ∈ segs, SegWF s) :
    normpath (joinSl segs ++ (if marker then ['/'] else [])) = joinSl segs := by
  obtain ⟨s, t, rfl⟩ : ∃ s t, segs = s :: t := by
    cases segs with
    | nil => exact absurd rfl hne
    | cons s t => exact ⟨s, t, rfl⟩
  have hs := hwf s (List.mem_cons_self s t)
  obtain ⟨x, hx⟩ := joinSl_cons_decomp s t
  have hnp : ¬ ['/'] <+: (joinSl (s :: t) ++ (if marker then ['/'] else [])) := by
    rw [hx, List.append_assoc]
    exact not_slash_pre hs.1 hs.2.2.2
  have hne2 : joinSl (s :: t) ++ (if marker then ['/'] else []) ≠ [] := by
    intro hc
    rcases List.append_eq_nil.mp hc with ⟨hc1, -⟩
    exact joinSl_cons_ne_nil t hs.1 hc1
  unfold normpath
  rw [if_neg hne2, leadSlashes_eq_zero hnp]
  rw [splitSl_of_wf hne hwf,
      npFold_wf _ 0 []
        (by
          intro c hm
          rcases List.mem_append.mp hm with hm | hm
          · exact Or.inr (hwf c hm)
          · cases marker
            · simp at hm
            · simp at hm; exact Or.inl hm)]
  have hfil : (((s :: t) ++ (if marker then [[]] else [])).filter
      (fun c => c ≠ [])) = s :: t := by
    rw [List.filter_append]
    have h1 : (s :: t).filter (fun c => c ≠ []) = s :: t :=
      List.filter_eq_self.mpr (fun c hm => by simp [(hwf c hm).1])
    have h2 : ((if marker then [[]] else []) : List PyStr).filter
        (fun c => c ≠ []) = [] := by
      cases marker <;> simp
    rw [h1, h2, List.append_nil]
  rw [hfil]
  simp only [List.replicate, List.nil_append]
  rw [if_neg (joinSl_cons_ne_nil t hs.1)]

theorem splitSl_normpath_wf {segs : List PyStr} {marker : Bool}
    (hne : segs ≠ []) (hwf : ∀ s ∈ segs, SegWF s) :
    splitSl (normpath (joinSl segs ++ (if marker then ['/'] else []))) = segs := by
  rw [normpath_wf hne hwf]
  exact splitSl_joinSl segs hne (fun c hc => (hwf c hc).2.2.2)

theorem listResolve_of_ne {z : ZipAdapter} {pop : PyStr}
    (h : listPre z pop ≠ []) :
    listPre z pop = osJoin z.cwd (normpath pop) ∧
      listGiven z pop = splitSl (listPre z pop) := by
  unfold listPre at h ⊢
  unfold listGiven
  unfold listResolve at h ⊢
  by_cases h0 : pop = []
  · rw [if_pos h0] at h
    exact absurd rfl h
  · rw [if_neg h0] at h ⊢
    by_cases hdeg : degenerate (osJoin z.cwd (normpath pop))
    · rw [if_pos hdeg] at h
      exact absurd rfl h
    · rw [if_neg hdeg] at h ⊢
      exact ⟨rfl, rfl⟩

theorem zipList_ok {z : ZipAdapter} {pop : PyStr} {rec : Bool} {out : List PyStr}
    (h : zipList z pop rec = .ok out) :
    listValidate z (listPre z pop) = .ok () ∧
      out = (if rec then recEntries (namelist z.ar) (listPre z pop)
             else nonRecChildren (namelist z.ar) (listGiven z pop)) := by
  unfold zipList at h
  cases hv : listValidate z (listPre z pop) with
  | error e =>
      simp only [hv] at h
      exact absurd h (by simp)
  | ok u =>
      cases u
      simp only [hv] at h
      cases rec <;> simp_all

theorem listValidate_ok {z : ZipAdapter} {pre : PyStr}
    (hne : pre ≠ []) (h : listValidate z pre = .ok ()) :
    (∃ n ∈ namelist z.ar, (pre ++ ['/']) <+: n) ∧
      (zipExists z pre = true → zipIsdir z pre = .ok true) := by
  unfold listValidate at h
  rw [if_neg hne] at h
  by_cases hex : zipExists z pre
  · rw [if_pos hex] at h
    cases hd : zipIsdir z pre with
    | error e => rw [hd] at h; exact absurd h (by simp)
    | ok b =>
        cases b
        · rw [hd] at h; exact absurd h (by simp)
        · rw [hd] at h
          refine ⟨?_, fun _ => rfl⟩
          by_cases hany : ∃ n ∈ namelist z.ar, (pre ++ ['/']) <+: n
          · exact hany
          · rw [if_neg hany] at h; exact absurd h (by simp)
  · rw [if_neg hex] at h
    refine ⟨?_, fun hc => absurd hc hex⟩
    by_cases hany : ∃ n ∈ namelist z.ar, (pre ++ ['/']) <+: n
    · exact hany
    · rw [if_neg hany] at h; exact absurd h (by simp)

/- ------------------------------------------------------------------ -/
/- Claims                                                             -/
/- ------------------------------------------------------------------ -/

/-- C1 counterexample: on an archive whose index contains only "d/b.txt",
`exists("d")` returns false, not true as the claim states — `Zip.exists`
checks only the exact resolved name and its slash variant against the
index and never infers existence from deeper entries. -/
theorem C1_counterexample :
    zipExists (atRoot arNoMarker) "d".toList = false := by decide

/-- C1 (amended): for every archive whose index contains only the entry
"d/b.txt", `exists("d")` returns false — existence is not inferred from a
deeper index entry; the inference the spec describes lives in `isdir`,
which does return true for "d". -/
theorem C1_amended (ar : Archive)
    (h1 : "d/b.txt".toList ∈ namelist ar)
    (h2 : ∀ n ∈ namelist ar, n = "d/b.txt".toList) :
    zipExists (atRoot ar) "d".toList = false ∧
      zipIsdir (atRoot ar) "d".toList = .ok true := by
  have hjd : osJoin (atRoot ar).cwd (normpath "d".toList) = "d".toList := by
    rw [atRoot_cwd, osJoin_nil_left]
    decide
  have hex : zipExists (atRoot ar) "d".toList = false := by
    unfold zipExists
    rw [hjd]
    simp only [decide_eq_false_iff_not]
    rintro (hm | hm)
    · exact absurd (h2 _ hm) (by decide)
    · exact absurd (h2 _ hm) (by decide)
  refine ⟨hex, ?_⟩
  unfold zipIsdir
  rw [show osJoin (atRoot ar).cwd "d".toList = "d".toList from by
        rw [atRoot_cwd, osJoin_nil_left]]
  rw [if_neg (by rw [hex]; simp)]
  rw [show normpath "d".toList = "d".toList from by decide]
  have : (∃ n ∈ namelist (atRoot ar).ar, ("d".toList ++ ['/']) <+: n) :=
    ⟨"d/b.txt".toList, h1, by decide⟩
  rw [decide_eq_true this]

/-- C1 witness: the amended statement evaluated on the concrete one-entry
archive. -/
theorem C1_witness :
    zipExists (atRoot arNoMarker) "d".toList = false ∧
      zipIsdir (atRoot arNoMarker) "d".toList = .ok true :=
  C1_amended arNoMarker (by decide) (by decide)

/-- C2 counterexample: after `close()`, `exists` still returns a result
(true) instead of failing — CPython's `ZipFile` keeps the parsed entry
list after close, and `Zip.exists` consults only that list. -/
theorem C2_counterexample :
    zipExists (zipClose (atRoot arNoMarker)) "d/b.txt".toList = true := by decide

/-- C2 (amended): after `close()`, `open` fails with the closed-archive
usage error, while `exists`, `stat`, `isdir` and `list` ignore the closed
state and return the same results as before closing. -/
theorem C2_amended (z : ZipAdapter) (p : PyStr) (rec : Bool) :
    zipOpen (zipClose z) p "rb".toList = .error .zipArchiveClosed ∧
    specKindOf .zipArchiveClosed = .usageError ∧
    zipExists (zipClose z) p = zipExists z p ∧
    zipStat (zipClose z) p = zipStat z p ∧
    zipIsdir (zipClose z) p = zipIsdir z p ∧
    zipList (zipClose z) p rec = zipList z p rec :=
  ⟨rfl, rfl, rfl, rfl, rfl, rfl⟩

/-- C3 counterexample: opening an entry for writing on a read-mode adapter
fails with zipfile's plain `ValueError` ("write() requires mode 'w', 'x',
or 'a'"), which is not an `io.UnsupportedOperation` instance, refuting the
claim that write-mode `open` raises UnsupportedOperation. -/
theorem C3_counterexample :
    zipOpen (atRoot arNoMarker) "a".toList "w".toList =
        .error .writeRequiresWriteMode ∧
      raisesUnsupportedOperation .writeRequiresWriteMode = false := by decide

/-- C3 (amended): `mkdir`, `makedirs`, `rename` and `remove` raise
`io.UnsupportedOperation` for every path; `open` with write mode on a
read-mode adapter fails with zipfile's plain `ValueError`, which is not an
`io.UnsupportedOperation`. -/
theorem C3_amended (z : ZipAdapter) (p q : PyStr) (rec : Bool) :
    (zipMkdir z p = .error .mkdirUnsupported ∧
      raisesUnsupportedOperation .mkdirUnsupported = true) ∧
    (zipMakedirs z p = .error .makedirsUnsupported ∧
      raisesUnsupportedOperation .makedirsUnsupported = true) ∧
    (zipRename z p q = .error .renameUnsupported ∧
      raisesUnsupportedOperation .renameUnsupported = true) ∧
    (zipRemove z p rec = .error .removeUnsupported ∧
      raisesUnsupportedOperation .removeUnsupported = true) ∧
    (z.closed = false →
      zipOpen z p "w".toList = .error .writeRequiresWriteMode ∧
        raisesUnsupportedOperation .writeRequiresWriteMode = false) := by
  refine ⟨⟨rfl, rfl⟩, ⟨rfl, rfl⟩, ⟨rfl, rfl⟩, ⟨rfl, rfl⟩, fun hc => ⟨?_, rfl⟩⟩
  unfold zipOpen zipFileOpen
  rw [hc]
  rfl

/-- C3 witness: the amended statement at a concrete open adapter. -/
theorem C3_witness :
    zipOpen (atRoot arNoMarker) "x".toList "w".toList =
        .error .writeRequiresWriteMode ∧
      raisesUnsupportedOperation .writeRequiresWriteMode = false :=
  (C3_amended (atRoot arNoMarker) "x".toList "y".toList false).2.2.2.2 rfl

/-- C4: constructing the adapter with both "r" and "w" in the mode string,
or with the create option set, yields an InvalidConfiguration-kind error
(per the spec §7 taxonomy) before the backing stream is opened and before
index parsing: the recorded external-action trace is empty. -/
theorem C4_init_rejects (mode : PyStr) (create : Bool)
    (h : create = true ∨ ('r' ∈ mode ∧ 'w' ∈ mode)) :
    ∃ e, zipInit mode create = (.error e, []) ∧
      specKindOf e = .invalidConfiguration := by
  rcases h with h | h
  · exact ⟨.createNotSupported, by simp [zipInit, h], rfl⟩
  · by_cases hc : create = true
    · exact ⟨.createNotSupported, by simp [zipInit, hc], rfl⟩
    · have hc2 : create = false := by simpa using hc
      exact ⟨.readWriteModeNotSupported, by simp [zipInit, hc2, h], rfl⟩

/-- C4 witness: both rejection cases at concrete arguments. -/
theorem C4_witness :
    (∃ e, zipInit "rw".toList false = (.error e, []) ∧
        specKindOf e = .invalidConfiguration) ∧
    (∃ e, zipInit "r".toList true = (.error e, []) ∧
        specKindOf e = .invalidConfiguration) :=
  ⟨C4_init_rejects "rw".toList false (Or.inr (by decide)),
   C4_init_rejects "r".toList true (Or.inl rfl)⟩

/-- C5: `stat` first looks the resolved name up exactly; if it is absent
and does not end in a separator, the slash-suffixed variant is tried, and
when only that variant is indexed, `stat` succeeds with its metadata; it
fails with the not-found error exactly when neither form matches. -/
theorem C5_stat_lookup (z : ZipAdapter) (p : PyStr) :
    (∀ zi, getinfo z.ar (osJoin z.cwd (normpath p)) = some zi →
        zipStat z p = .ok (zipFileStatOf zi)) ∧
    (∀ zi, osJoin z.cwd (normpath p) ∉ namelist z.ar →
        ¬ (['/'] <:+ osJoin z.cwd (normpath p)) →
        getinfo z.ar (osJoin z.cwd (normpath p) ++ ['/']) = some zi →
        zipStat z p = .ok (zipFileStatOf zi)) ∧
    (zipStat z p = .error (.fileNotFound (osJoin z.cwd (normpath p))) ↔
        osJoin z.cwd (normpath p) ∉ namelist z.ar ∧
          ((['/'] <:+ osJoin z.cwd (normpath p)) ∨
            osJoin z.cwd (normpath p) ++ ['/'] ∉ namelist z.ar)) := by
  refine ⟨?_, ?_, ?_, ?_⟩
  · intro zi hg
    unfold zipStat
    rw [if_pos (getinfo_mem_namelist hg), hg]
  · intro zi hmem hsuf hg
    unfold zipStat
    rw [if_neg hmem, if_pos ⟨hsuf, getinfo_mem_namelist hg⟩, hg]
  · intro h
    by_cases h1 : osJoin z.cwd (normpath p) ∈ namelist z.ar
    · exfalso
      unfold zipStat at h
      rw [if_pos h1] at h
      obtain ⟨zi, hzi, -⟩ := mem_getinfo h1
      rw [hzi] at h
      exact absurd h (by simp)
    · refine ⟨h1, ?_⟩
      by_cases hsuf : ['/'] <:+ osJoin z.cwd (normpath p)
      · exact Or.inl hsuf
      · refine Or.inr ?_
        intro hm2
        unfold zipStat at h
        rw [if_neg h1, if_pos ⟨hsuf, hm2⟩] at h
        obtain ⟨zi, hzi, -⟩ := mem_getinfo hm2
        rw [hzi] at h
        exact absurd h (by simp)
  · rintro ⟨h1, h2⟩
    unfold zipStat
    rw [if_neg h1, if_neg]
    rintro ⟨hs, hm⟩
    rcases h2 with h2 | h2
    · exact hs h2
    · exact h2 hm

/-- C5 witness: on an archive holding only the marker "d/", `stat("d")`
succeeds via the slash-suffixed retry. -/
theorem C5_witness :
    zipStat (atRoot arMarkerOnly) "d".toList =
      .ok (zipFileStatOf ⟨"d/".toList, (0o40755 <<< 16) + 0x10, 0⟩) :=
  (C5_stat_lookup (atRoot arMarkerOnly) "d".toList).2.1
    ⟨"d/".toList, (0o40755 <<< 16) + 0x10, 0⟩ (by decide) (by decide) (by decide)

/-- C6: with a non-empty effective prefix, non-recursive or recursive
`list` fails with not-a-directory when the prefix exists and is not a
directory, and otherwise fails with not-found when no index entry starts
with the prefix followed by a separator — both before yielding anything. -/
theorem C6_list_validation (z : ZipAdapter) (pop : PyStr) (rec : Bool)
    (hne : listPre z pop ≠ []) :
    (zipExists z (listPre z pop) = true →
      zipIsdir z (listPre z pop) = .ok false →
      zipList z pop rec = .error (.notADirectory (listPre z pop))) ∧
    ((zipExists z (listPre z pop) = false ∨
        zipIsdir z (listPre z pop) = .ok true) →
      (¬ ∃ n ∈ namelist z.ar, (listPre z pop ++ ['/']) <+: n) →
      zipList z pop rec = .error (.fileNotFound (listPre z pop))) := by
  constructor
  · intro hex hdir
    have hv : listValidate z (listPre z pop) =
        .error (.notADirectory (listPre z pop)) := by
      unfold listValidate
      rw [if_neg hne, if_pos hex, hdir]
    unfold zipList
    simp only [hv]
  · intro hA hno
    have hv : listValidate z (listPre z pop) =
        .error (.fileNotFound (listPre z pop)) := by
      unfold listValidate
      rw [if_neg hne]
      rcases hA with hA | hA
      · rw [if_neg (by rw [hA]; simp), if_neg hno]
      · by_cases hex : zipExists z (listPre z pop) = true
        · rw [if_pos hex, hA, if_neg hno]
        · rw [if_neg hex, if_neg hno]
    unfold zipList
    simp only [hv]

/-- C6 witness: listing a prefix that names a regular file fails with
not-a-directory. -/
theorem C6_witness :
    zipList (atRoot arRootFile) "a.txt".toList false =
      .error (.notADirectory "a.txt".toList) := by
  have h := (C6_list_validation (atRoot arRootFile) "a.txt".toList false
    (by decide)).1 (by decide) (by decide)
  rw [show listPre (atRoot arRootFile) "a.txt".toList = "a.txt".toList from
    by decide] at h
  exact h

/-- C7 counterexample: on the archive whose only entry is "d//c",
`list("d", recursive=False)` yields "c" (entries are normalized before
splitting), but "d" re-joined with "c" gives "d/c", which neither matches
an index entry exactly nor is a prefix of any deeper entry — refuting the
re-join conjunct of the claim for arbitrary archives. -/
theorem C7_counterexample :
    zipList (atRoot arDoubleSlash) "d".toList false = .ok ["c".toList] ∧
      (∀ e ∈ namelist arDoubleSlash,
        ¬ ("d/c".toList = e ∨ ("d/c/".toList) <+: e)) := by
  constructor
  · decide
  · decide

/-- C7 (amended): restricted to archives whose entry names are well-formed
slash-separated paths (nonempty non-dot segments, optional trailing
separator), a successful non-recursive listing of a non-degenerate prefix
yields exactly the immediate child names: no duplicates, membership is
exactly having an index entry whose normalized segments extend the
prefix's segments, the output is the first-seen-order deduplication of the
per-entry candidates, and every yielded name re-joined with the prefix
matches an index entry exactly or is a prefix of a deeper entry. -/
theorem C7_amended (z : ZipAdapter) (d : PyStr) (out : List PyStr)
    (hwf : ∀ n ∈ namelist z.ar, WFName n)
    (hne : listPre z d ≠ [])
    (hout : zipList z d false = .ok out) :
    out.Nodup ∧
    (∀ c, c ∈ out ↔
      ∃ n ∈ namelist z.ar, childCandidate (listGiven z d) n = some c) ∧
    out = firstSeenDedup ((namelist z.ar).filterMap
      (childCandidate (listGiven z d))) ∧
    (∀ c ∈ out, ∃ e ∈ namelist z.ar,
      (listPre z d ++ '/' :: c = e ∨
        (listPre z d ++ '/' :: (c ++ ['/'])) <+: e)) := by
  obtain ⟨-, houtEq⟩ := zipList_ok hout
  simp only [Bool.false_eq_true, if_false] at houtEq
  obtain ⟨-, hgiven⟩ := listResolve_of_ne hne
  have hdedup : out = firstSeenDedup ((namelist z.ar).filterMap
      (childCandidate (listGiven z d))) := by
    rw [houtEq, nonRecChildren_eq_dedup]
  have hgne : listGiven z d ≠ [] := by
    rw [hgiven]; exact splitSl_ne_nil _
  have hpj : joinSl (listGiven z d) = listPre z d := by
    rw [hgiven, joinSl_splitSl]
  refine ⟨?_, ?_, hdedup, ?_⟩
  · rw [hdedup]; exact firstSeenDedup_nodup _
  · intro c
    rw [hdedup, mem_firstSeenDedup, List.mem_filterMap]
  · intro c hc
    rw [hdedup, mem_firstSeenDedup, List.mem_filterMap] at hc
    obtain ⟨n, hn, hcand⟩ := hc
    obtain ⟨segs, marker, hsegsne, hsegwf, hre⟩ := hwf n hn
    have hsn : splitSl (normpath n) = segs := by
      rw [hre]; exact splitSl_normpath_wf hsegsne hsegwf
    unfold childCandidate at hcand
    rw [if_neg hgne, hsn] at hcand
    by_cases hcond : segs.length > (listGiven z d).length ∧
        segs.take (listGiven z d).length = listGiven z d
    · rw [if_pos hcond] at hcand
      obtain ⟨rest, hdrop⟩ : ∃ rest,
          segs.drop (listGiven z d).length = c :: rest := by
        cases hd : segs.drop (listGiven z d).length with
        | nil => rw [hd] at hcand; simp at hcand
        | cons x r =>
            rw [hd] at hcand
            simp only [List.head?_cons, Option.some.injEq] at hcand
            exact ⟨r, by rw [hcand]⟩
      have hsegs2 : segs = listGiven z d ++ c :: rest := by
        conv_lhs => rw [← List.take_append_drop (listGiven z d).length segs]
        rw [hcond.2, hdrop]
      have hn2 : n = (joinSl (listGiven z d) ++ '/' :: joinSl (c :: rest)) ++
          (if marker then ['/'] else []) := by
        rw [hre, hsegs2, joinSl_append (listGiven z d) (c :: rest) hgne (by simp)]
      refine ⟨n, hn, ?_⟩
      cases rest with
      | nil =>
          cases marker with
          | false =>
              left
              rw [← hpj, hn2]
              simp [joinSl]
          | true =>
              right
              rw [← hpj, hn2]
              have hflat : joinSl (listGiven z d) ++ '/' :: (c ++ ['/']) =
                  (joinSl (listGiven z d) ++ '/' :: joinSl [c]) ++ ['/'] := by
                simp [joinSl]
              rw [hflat]
              exact List.prefix_rfl
      | cons y t =>
          right
          rw [← hpj, hn2, joinSl_cons_cons]
          refine ⟨joinSl (y :: t) ++ (if marker then ['/'] else []), ?_⟩
          simp
    · rw [if_neg hcond] at hcand
      simp at hcand

/-- C7 witness: the amended statement on the marker-free archive, applied
to the yielded child "b.txt" of prefix "d". -/
theorem C7_witness :
    ∃ e ∈ namelist arNoMarker,
      (listPre (atRoot arNoMarker) "d".toList ++ '/' :: "b.txt".toList = e ∨
        (listPre (atRoot arNoMarker) "d".toList ++ '/' ::
          ("b.txt".toList ++ ['/'])) <+: e) :=
  (C7_amended (atRoot arNoMarker) "d".toList ["b.txt".toList]
      (by
        intro n hn
        rw [atRoot_ar] at hn
        simp only [arNoMarker, namelist, List.map_cons, List.map_nil,
          List.mem_singleton] at hn
        rw [hn]
        exact ⟨[['d'], "b.txt".toList], false, by decide, by decide, by decide⟩)
      (by decide) (by decide)).2.2.2 "b.txt".toList (by decide)

/-- C8: when the joined and normalized prefix is degenerate (contains "."
or ".." segments or is all separators), `list` raises no error and behaves
exactly like a listing of the whole archive. -/
theorem C8_degenerate_root (z : ZipAdapter) (pop : PyStr) (rec : Bool)
    (hne : pop ≠ []) (hdeg : degenerate (osJoin z.cwd (normpath pop))) :
    zipList z pop rec = zipList z [] rec ∧
      ∃ out, zipList z pop rec = .ok out := by
  have hres : listResolve z pop = ([], []) := by
    unfold listResolve
    rw [if_neg hne, if_pos hdeg]
  have hres0 : listResolve z [] = ([], []) := by
    unfold listResolve
    rw [if_pos rfl]
  have heq : zipList z pop rec = zipList z [] rec := by
    unfold zipList listPre listGiven
    rw [hres, hres0]
  refine ⟨heq, ?_⟩
  rw [heq]
  have hval : listValidate z (listPre z []) = .ok () := by
    unfold listPre listResolve listValidate
    rw [if_pos rfl]
    exact if_pos rfl
  unfold zipList
  simp only [hval]
  cases rec
  · exact ⟨_, rfl⟩
  · exact ⟨_, rfl⟩

/-- C8 witness: the prefix ".." is treated as the archive root. -/
theorem C8_witness :
    zipList (atRoot arRootFile) "..".toList false =
        zipList (atRoot arRootFile) [] false ∧
      ∃ out, zipList (atRoot arRootFile) "..".toList false = .ok out :=
  C8_degenerate_root (atRoot arRootFile) "..".toList false (by decide)
    (by rw [atRoot_cwd, osJoin_nil_left]; decide)

/-- C9 counterexample: on an archive holding the single file "a.txt",
`list(".")` yields one name (the degenerate prefix is treated as the
root), yet `isdir(".")` is false — refuting the claim that `isdir` is true
for every path whose non-recursive listing is non-empty. -/
theorem C9_counterexample :
    zipList (atRoot arRootFile) ".".toList false = .ok ["a.txt".toList] ∧
      zipIsdir (atRoot arRootFile) ".".toList = .ok false := by
  constructor
  · decide
  · decide

/-- C9 (amended): restricted to normalized, non-degenerate paths, a
successful non-empty non-recursive listing implies `isdir` is true; and
every path resolving exactly to an index entry without the directory bit
has `isdir` false.  The original claim fails on degenerate paths such as
".", which `list` treats as the archive root but `isdir` does not. -/
theorem C9_amended (ar : Archive) :
    (∀ d out, d ≠ [] → normpath d = d → ¬ degenerate d →
      zipList (atRoot ar) d false = .ok out → out ≠ [] →
      zipIsdir (atRoot ar) d = .ok true) ∧
    (∀ p zi, getinfo ar (normpath p) = some zi →
      fileStatIsdir (zipFileStatOf zi) = false →
      zipIsdir (atRoot ar) p = .ok false) := by
  constructor
  · intro d out hne hnorm hdeg hlist _
    have hpre : listPre (atRoot ar) d = d := by
      unfold listPre listResolve
      rw [show osJoin (atRoot ar).cwd (normpath d) = d from
        by rw [atRoot_cwd, osJoin_nil_left, hnorm]]
      rw [if_neg hne, if_neg hdeg]
    obtain ⟨hval, -⟩ := zipList_ok hlist
    rw [hpre] at hval
    obtain ⟨hany, hexdir⟩ := listValidate_ok hne hval
    by_cases hex : zipExists (atRoot ar) d = true
    · exact hexdir hex
    · unfold zipIsdir
      rw [show osJoin (atRoot ar).cwd d = d from by rw [atRoot_cwd, osJoin_nil_left]]
      rw [if_neg hex, hnorm, decide_eq_true hany]
  · intro p zi hget hdir
    have hjp : osJoin (atRoot ar).cwd (normpath p) = normpath p := by
      rw [atRoot_cwd, osJoin_nil_left]
    have hmem : normpath p ∈ namelist ar := getinfo_mem_namelist hget
    have hex : zipExists (atRoot ar) p = true := by
      unfold zipExists
      rw [hjp]
      exact decide_eq_true (Or.inl hmem)
    have hst : zipStat (atRoot ar) p = .ok (zipFileStatOf zi) := by
      unfold zipStat
      rw [hjp, atRoot_ar, if_pos hmem, hget]
    unfold zipIsdir
    rw [show osJoin (atRoot ar).cwd p = p from by rw [atRoot_cwd, osJoin_nil_left]]
    rw [if_pos hex, hst]
    show (Except.ok (fileStatIsdir (zipFileStatOf zi)) : Except ZipError Bool) =
      Except.ok false
    rw [hdir]

/-- C9 witness: both amended directions at concrete archives. -/
theorem C9_witness :
    zipIsdir (atRoot arNoMarker) "d".toList = .ok true ∧
      zipIsdir (atRoot arRootFile) "a.txt".toList = .ok false :=
  ⟨(C9_amended arNoMarker).1 "d".toList ["b.txt".toList] (by decide) (by decide)
      (by decide) (by decide) (by decide),
   (C9_amended arRootFile).2 "a.txt".toList ⟨"a.txt".toList, 0o100644 <<< 16, 5⟩
      (by decide) (by decide)⟩

/-- C10 counterexample: the archive holding only "./x" has no entry named
"." or "./", yet `isdir("")` returns true — the empty path normalizes to
"." and "./x" starts with "./", so "." is a prefix of an entry after all,
refuting the claim that `isdir("")` is false for every such archive. -/
theorem C10_counterexample :
    (∀ n ∈ namelist arDotSlash, n ≠ ".".toList ∧ n ≠ "./".toList) ∧
      zipIsdir (atRoot arDotSlash) [] = .ok true := by
  constructor
  · decide
  · decide

/-- C10 (amended): with the working root at the archive root, for every
archive with no entry named "." and no entry starting with "./",
`exists("")` and `isdir("")` are false, while `list("")` still succeeds
and enumerates the root children. -/
theorem C10_amended (ar : Archive)
    (h : ∀ n ∈ namelist ar, n ≠ ['.'] ∧ ¬ (['.', '/'] <+: n)) :
    zipExists (atRoot ar) [] = false ∧
      zipIsdir (atRoot ar) [] = .ok false ∧
      zipList (atRoot ar) [] false = .ok (nonRecChildren (namelist ar) []) := by
  have hnp : normpath ([] : PyStr) = ['.'] := by decide
  have hex : zipExists (atRoot ar) [] = false := by
    unfold zipExists
    rw [atRoot_cwd, osJoin_nil_left, hnp]
    simp only [decide_eq_false_iff_not]
    rintro (hm | hm)
    · exact (h _ hm).1 rfl
    · exact (h _ hm).2 List.prefix_rfl
  refine ⟨hex, ?_, rfl⟩
  unfold zipIsdir
  rw [show osJoin (atRoot ar).cwd [] = [] from by rw [atRoot_cwd, osJoin_nil_left]]
  rw [if_neg (by rw [hex]; simp), hnp]
  have hno : ¬ (∃ n ∈ namelist (atRoot ar).ar, (['.'] ++ ['/']) <+: n) := by
    rintro ⟨n, hm, hp⟩
    exact (h n hm).2 hp
  rw [decide_eq_false hno]

/-- C10 witness: the amended statement on the single-file archive. -/
theorem C10_witness :
    zipExists (atRoot arRootFile) [] = false ∧
      zipIsdir (atRoot arRootFile) [] = .ok false ∧
      zipList (atRoot arRootFile) [] false =
        .ok (nonRecChildren (namelist arRootFile) []) :=
  C10_amended arRootFile (by decide)

end PfioZip
